import Mathlib

namespace StrictTypes

/-!
Verification development for the rgb-strict-types repository core: the
schema compilation / content-addressing pipeline (src/stl.rs) and the
structural layout deriver (src/layout/memory.rs).

Parts of the repository that are referenced by the two source files but are
not themselves part of the shown sources (the TypeTree structural view, the
LibBuilder and compiler, the digest display) are modelled from the
specification; each such definition carries a doc comment saying so.
-/

set_option linter.unusedSectionVars false

deriving instance DecidableEq for Except

/-- Modelled from the spec: TypeInfo is an immutable descriptor of one node in
a type's structural shape, with a path of field/variant labels from the root,
a primitive class and a width/size hint (the concrete TypeInfo type lives in
the repository's typesys module, outside the shown sources). -/
structure TypeInfo where
  path : List String
  cls : String
  size : Nat
  deriving DecidableEq

/-- Modelled from the spec: an unresolved or externally-qualified reference to
a named type; the referenced symbol is owned by its own library. -/
structure SymbolRef where
  lib_name : Option String
  type_name : String
  deriving DecidableEq

/-- Modelled from the spec: the closed, tagged-variant shape of a type
expression, with variants Primitive, Struct (ordered fields), Enum (ordered
variants), Collection (element shape) and Reference (named indirection). -/
inductive Ty where
  | primitive (cls : String) (size : Nat)
  | struct (fields : List (String × Ty))
  | enum (variants : List (String × Ty))
  | collection (minLen maxLen : Nat) (elem : Ty)
  | reference (r : SymbolRef)

/-- Modelled from the spec: a TypeTree is a read-only structural view over a
type definition's recursive field graph, used only as a traversal source. -/
abbrev TypeTree := Ty

/-- Modelled from the spec: the single sized slot recorded for a named
indirection (recursion through a reference is not unrolled). -/
def refInfo (path : List String) (r : SymbolRef) : TypeInfo :=
  { path := path, cls := "ref " ++ r.type_name, size := 0 }

mutual

/-- Modelled from the spec: pre-order traversal of a type's structural shape,
appending one TypeInfo per leaf/primitive node; composite nodes contribute to
the path prefix of descendants but occupy no slot of their own, and a
collection records its element shape once, not unrolled. -/
def typeLeaves (path : List String) : Ty → List TypeInfo
  | .primitive cls sz => [{ path := path, cls := cls, size := sz }]
  | .reference r => [refInfo path r]
  | .struct fs => fieldLeaves path fs
  | .enum vs => fieldLeaves path vs
  | .collection _ _ e => typeLeaves path e

/-- Traversal of an ordered field/variant list, in declaration order. -/
def fieldLeaves (path : List String) : List (String × Ty) → List TypeInfo
  | [] => []
  | f :: fs => typeLeaves (path ++ [f.1]) f.2 ++ fieldLeaves path fs

end

mutual

/-- Number of leaf/primitive nodes reachable by structural traversal. -/
def leafCount : Ty → Nat
  | .primitive _ _ => 1
  | .reference _ => 1
  | .struct fs => fieldsLeafCount fs
  | .enum vs => fieldsLeafCount vs
  | .collection _ _ e => leafCount e

/-- Leaf count of an ordered field/variant list. -/
def fieldsLeafCount : List (String × Ty) → Nat
  | [] => 0
  | f :: fs => leafCount f.2 + fieldsLeafCount fs

end

mutual

/-- Structural size of a type expression, dominating the traversal's
recursion depth; used as a fuel bound. -/
def tySize : Ty → Nat
  | .primitive _ _ => 1
  | .reference _ => 1
  | .struct fs => 2 + fieldsSize fs
  | .enum vs => 2 + fieldsSize vs
  | .collection _ _ e => 1 + tySize e

/-- Structural size of an ordered field/variant list. -/
def fieldsSize : List (String × Ty) → Nat
  | [] => 0
  | f :: fs => 1 + tySize f.2 + fieldsSize fs

end

mutual

/-- Fuel-indexed version of the structural traversal: every recursive call
consumes one unit of fuel, and exhausted fuel yields none. -/
def typeLeavesFuel : Nat → List String → Ty → Option (List TypeInfo)
  | 0, _, _ => none
  | n + 1, path, t =>
    match t with
    | .primitive cls sz => some [{ path := path, cls := cls, size := sz }]
    | .reference r => some [refInfo path r]
    | .struct fs => fieldLeavesFuel n path fs
    | .enum vs => fieldLeavesFuel n path vs
    | .collection _ _ e => typeLeavesFuel n path e

/-- Fuel-indexed traversal of an ordered field/variant list. -/
def fieldLeavesFuel : Nat → List String → List (String × Ty) → Option (List TypeInfo)
  | 0, _, _ => none
  | _ + 1, _, [] => some []
  | n + 1, path, f :: fs =>
    match typeLeavesFuel n (path ++ [f.1]) f.2, fieldLeavesFuel n path fs with
    | some a, some b => some (a ++ b)
    | _, _ => none

end

/-- Maximal number of items of the bounded item container. Modelled from the
spec: MemoryLayout's items form a size-bounded sequence whose capacity is a
very large but finite limit (the confined vector used by the source is bounded
by 2 ^ 32 - 1 elements). -/
def LARGE_VEC_MAX_LEN : Nat := 2 ^ 32 - 1

/-- MemoryLayout from src/layout/memory.rs: an ordered, size-bounded sequence
of TypeInfo produced by flattening a TypeTree. -/
structure MemoryLayout where
  items : List TypeInfo
  deriving DecidableEq

/-- MemoryLayout::new from src/layout/memory.rs. -/
def MemoryLayout.new : MemoryLayout := { items := [] }

/-- Modelled from the spec: extending the bounded item container with the
items produced by iterating a TypeTree; returns an error when the capacity
bound would be exceeded (the confined vector's extend). -/
def largeVecExtend (v : List TypeInfo) (more : List TypeInfo) :
    Except String (List TypeInfo) :=
  if v.length + more.length ≤ LARGE_VEC_MAX_LEN then .ok (v ++ more)
  else .error "confinement overflow"

/-- Iterating a TypeTree yields one TypeInfo per leaf, in pre-order. Modelled
from the spec: the iterator lives in the repository's typesys module. -/
def typeTreeItems (tree : TypeTree) : List TypeInfo := typeLeaves [] tree

/-- From TypeTree for MemoryLayout (by value), src/layout/memory.rs lines
36-42: extend a fresh layout with the tree's items, and treat a capacity
violation as a fatal abort carrying the expect message. -/
def MemoryLayout.fromTypeTree (tree : TypeTree) : Except String MemoryLayout :=
  let layout := MemoryLayout.new
  match largeVecExtend layout.items (typeTreeItems tree) with
  | .ok items => .ok { items := items }
  | .error _ => .error "type layout exceeds billions of fields"

/-- From a borrowed TypeTree for MemoryLayout, src/layout/memory.rs lines
44-50: the same construction reading the tree by reference. -/
def MemoryLayout.fromTypeTreeRef (tree : TypeTree) : Except String MemoryLayout :=
  let layout := MemoryLayout.new
  match largeVecExtend layout.items (typeTreeItems tree) with
  | .ok items => .ok { items := items }
  | .error _ => .error "type layout exceeds billions of fields"

/-- Example type from the specification's end-to-end scenarios: a struct
with fields x of a byte primitive and y of a nested struct with field inner
of a boolean primitive. -/
def demoTree : Ty :=
  .struct [("x", .primitive "U8" 1), ("y", .struct [("inner", .primitive "Bool" 1)])]

/-- A complete binary type of depth n with 2 ^ n primitive leaves. -/
def bigTy : Nat → Ty
  | 0 => .primitive "U8" 1
  | n + 1 => .struct [("a", bigTy n), ("b", bigTy n)]

/-! ### The symbolic library, builder and resolution (modelled from the spec:
the LibBuilder, SymbolicLib and compiler live outside the shown sources; only
their callers in src/stl.rs are shown). -/

/-- Modelled from the spec: recoverable errors of transpilation and
resolution: a name collision at transpile time, and an unresolved reference
reported with the offending reference and its referring type. -/
inductive TranspileError where
  | nameCollision (name : String)
  | unresolvedRef (referrer : String) (missing : SymbolRef)
  deriving DecidableEq

/-- Modelled from the spec: a named type definition pending resolution. -/
structure TypeSymbol where
  name : String
  defn : Ty

/-- Modelled from the spec: a declared dependency library: its name, its
content-derived identity, and the type names it exports (the builder receives
these through the dependency types of an already compiled library). -/
structure Dependency where
  name : String
  id : List Nat
  types : List String

/-- Modelled from the spec: a SymbolicLib is an unresolved or partially
resolved collection of type symbols plus a declared set of dependency
libraries; symbol names are unique and insertion order is significant only
until canonicalization. -/
structure SymbolicLib where
  name : String
  symbols : List TypeSymbol
  dependencies : List Dependency

mutual

/-- All symbol references contained in a type expression, in traversal
order. -/
def tyRefs : Ty → List SymbolRef
  | .primitive _ _ => []
  | .reference r => [r]
  | .struct fs => fieldsRefs fs
  | .enum vs => fieldsRefs vs
  | .collection _ _ e => tyRefs e

/-- All symbol references contained in an ordered field/variant list. -/
def fieldsRefs : List (String × Ty) → List SymbolRef
  | [] => []
  | f :: fs => tyRefs f.2 ++ fieldsRefs fs

end

/-- Modelled from the spec: a reference without an explicit external-library
qualifier resolves to a symbol defined in the same library or in one of its
declared dependencies; a qualified reference resolves only to a declared
dependency library exporting the name. -/
def SymbolicLib.resolves (l : SymbolicLib) (r : SymbolRef) : Bool :=
  match r.lib_name with
  | none =>
    l.symbols.any (fun s => s.name == r.type_name) ||
      l.dependencies.any (fun d => d.types.contains r.type_name)
  | some ln =>
    l.dependencies.any (fun d => d.name == ln && d.types.contains r.type_name)

/-- The first unresolved reference among the given symbols, together with the
name of the referring symbol. -/
def firstUnresolvedIn (l : SymbolicLib) : List TypeSymbol → Option (String × SymbolRef)
  | [] => none
  | s :: rest =>
    match (tyRefs s.defn).find? (fun r => !(l.resolves r)) with
    | some r => some (s.name, r)
    | none => firstUnresolvedIn l rest

/-- The first unresolved reference of the library, if any. -/
def SymbolicLib.firstUnresolved (l : SymbolicLib) : Option (String × SymbolRef) :=
  firstUnresolvedIn l l.symbols

/-- Modelled from the spec: intra-library resolution: every reference must
resolve to a known name, and any failure is reported as a recoverable error
identifying the missing symbol and its referrer. -/
def SymbolicLib.compile_symbols (l : SymbolicLib) : Except TranspileError SymbolicLib :=
  match l.firstUnresolved with
  | some (referrer, r) => .error (.unresolvedRef referrer r)
  | none => .ok l

/-- Modelled from the spec: the construction API accumulating transpiled type
symbols into a SymbolicLib; a name collision is recorded and rejected. -/
structure LibBuilder where
  name : String
  dependencies : List Dependency
  symbols : List TypeSymbol
  collision : Option String

/-- LibBuilder construction, scoped to a library name with pre-registered
dependencies (LibBuilder::with). -/
def LibBuilder.withLib (name : String) (deps : List Dependency) : LibBuilder :=
  { name := name, dependencies := deps, symbols := [], collision := none }

/-- Modelled from the spec: transpiling one type symbol into the builder;
rejected when the name collides with an existing symbol of the library. -/
def LibBuilder.transpile (b : LibBuilder) (s : TypeSymbol) : LibBuilder :=
  if b.symbols.any (fun t => t.name == s.name) then
    { b with collision := b.collision.getD s.name }
  else { b with symbols := b.symbols ++ [s] }

/-- The SymbolicLib assembled by a builder. -/
def LibBuilder.toLib (b : LibBuilder) : SymbolicLib :=
  { name := b.name, symbols := b.symbols, dependencies := b.dependencies }

/-- Modelled from the spec: finishing a builder: a recorded name collision is
rejected, and otherwise intra-library resolution runs. -/
def LibBuilder.compile_symbols (b : LibBuilder) : Except TranspileError SymbolicLib :=
  match b.collision with
  | some n => .error (.nameCollision n)
  | none => b.toLib.compile_symbols

/-! ### Canonical serialization and the content-derived identifier (modelled
from the spec: compilation canonicalizes the symbol table in a fixed
content-derived order, hashes the canonical byte sequence with a pluggable
collision-resistant digest, and renders the digest in a readable form). -/

mutual

/-- Modelled from the spec: normal-form serialization of a type expression,
fully expanding structural shape and keeping references by name. -/
def serTy : Ty → String
  | .primitive cls sz => "P(" ++ cls ++ "," ++ toString sz ++ ")"
  | .reference r =>
    "R(" ++ (match r.lib_name with | none => "" | some ln => ln ++ ".") ++ r.type_name ++ ")"
  | .struct fs => "S(" ++ serFields fs ++ ")"
  | .enum vs => "E(" ++ serFields vs ++ ")"
  | .collection lo hi e =>
    "C(" ++ toString lo ++ "," ++ toString hi ++ "," ++ serTy e ++ ")"

/-- Serialization of an ordered field/variant list, in declaration order. -/
def serFields : List (String × Ty) → String
  | [] => ""
  | f :: fs => f.1 ++ ":" ++ serTy f.2 ++ ";" ++ serFields fs

end

/-- Serialization of one named symbol. -/
def serSym (s : TypeSymbol) : String := s.name ++ ">" ++ serTy s.defn

/-- Serialization of one declared dependency, by its identity. -/
def serDep (d : Dependency) : String := d.name ++ "=" ++ toString d.id

/-- An order key for canonicalization: a positional numeric encoding of a
string (base larger than any scalar value, so distinct strings get distinct
keys and the induced order is a linear order). -/
def natKey (s : String) : Nat :=
  s.toList.foldl (fun acc c => acc * 2 ^ 32 + (c.toNat + 1)) 1

/-- Modelled from the spec: the canonical serialization of a SymbolicLib: its
name, its symbol table re-serialized in a fixed content-derived order
independent of insertion order, and its dependency identities, also in a
fixed order; rendered as a numeric sequence with 0 as an unambiguous
separator (every key is at least 1). -/
def canonical (l : SymbolicLib) : List Nat :=
  natKey l.name :: 0 ::
    List.insertionSort (· ≤ ·) (l.symbols.map (fun s => natKey (serSym s))) ++
    0 :: List.insertionSort (· ≤ ·) (l.dependencies.map (fun d => natKey (serDep d)))

/-- Modelled from the spec: the content digest is a fixed-width byte string
(the concrete collision-resistant hash is a pluggable external primitive, so
it appears below as an explicit function argument). -/
abbrev Digest := List Nat

/-- A digest is 32 bytes, each below 256. -/
def validDigest (d : Digest) : Bool := d.length == 32 && d.all (· < 256)

/-- Modelled from the spec: the compact readable alphabet of 64 characters
into which the digest is re-encoded. -/
def alphabet : List Char :=
  "ABCDEFGHIJKLMNOPQRSTUVWXYZabcdefghijklmnopqrstuvwxyz0123456789~_".toList

/-- Lowercase letters, the characters of mnemonic words. -/
def alphaLower : List Char := "abcdefghijklmnopqrstuvwxyz".toList

/-- Bit j (most significant first within each byte) of a digest. -/
def digestBit (d : Digest) (j : Nat) : Nat := d.getD (j / 8) 0 / 2 ^ (7 - j % 8) % 2

/-- The 6-bit value encoded by character i of the digest rendering. -/
def charIndexAt (d : Digest) (i : Nat) : Nat :=
  32 * digestBit d (6 * i) + 16 * digestBit d (6 * i + 1) + 8 * digestBit d (6 * i + 2) +
    4 * digestBit d (6 * i + 3) + 2 * digestBit d (6 * i + 4) + digestBit d (6 * i + 5)

/-- Character i of the digest rendering. -/
def digestChar (d : Digest) (i : Nat) : Char := alphabet.getD (charIndexAt d i) 'A'

/-- Modelled from the spec: the 256 digest bits re-encoded into 43 characters
of the readable alphabet, six bits per character, zero-padded at the end. -/
def encodeDigest (d : Digest) : List Char := (List.range 43).map (digestChar d)

/-- The fixed widths of the dash-separated groups of the rendering. -/
def groupSizes : List Nat := [8, 7, 7, 7, 7, 7]

/-- Split a character sequence into blocks of the given sizes. -/
def splitSizes : List Nat → List Char → List (List Char)
  | [], _ => []
  | n :: ns, cs => cs.take n :: splitSizes ns (cs.drop n)

/-- Join blocks with a separator character. -/
def joinSep (sep : Char) : List (List Char) → List Char
  | [] => []
  | [g] => g
  | g :: h :: gs => g ++ sep :: joinSep sep (h :: gs)

/-- The dash-grouped digest rendering. -/
def displayChars (d : Digest) : List Char := joinSep '-' (splitSizes groupSizes (encodeDigest d))

/-- Modelled from the spec: the human-facing identifier string of a library:
the prefix tag, the dash-grouped digest rendering, and three dash-separated
mnemonic words deterministically derived from the digest (the concrete word
derivation is a pluggable external function, passed as an argument). -/
def idString (hash : List Nat → Digest) (mnem : Digest → List String) (l : SymbolicLib) :
    String :=
  String.mk
    ('s' :: 't' :: 'l' :: ':' :: displayChars (hash (canonical l)) ++
      '#' :: joinSep '-' (((mnem (hash (canonical l))).map String.toList)))

/-- Modelled from the spec: a library identity is the digest of its canonical
serialization. -/
def libId (hash : List Nat → Digest) (l : SymbolicLib) : Digest := hash (canonical l)

/-- TypeLib, modelled from the spec: the immutable compiled content-addressed
artifact with its identity, resolved types and dependency identities. -/
structure TypeLib where
  id : Digest
  name : String
  types : List TypeSymbol
  dependencies : List (List Nat)

/-- Modelled from the spec: compilation of a SymbolicLib: rejected while any
reference remains unresolved, and otherwise emitting the immutable TypeLib
with the content-derived identity. -/
def SymbolicLib.compile (hash : List Nat → Digest) (l : SymbolicLib) :
    Except TranspileError TypeLib :=
  match l.firstUnresolved with
  | some (referrer, r) => .error (.unresolvedRef referrer r)
  | none =>
    .ok { id := libId hash l, name := l.name, types := l.symbols,
          dependencies := l.dependencies.map (fun d => d.id) }

/-- Split a character sequence at every occurrence of a separator. -/
def splitSep (sep : Char) : List Char → List (List Char)
  | [] => [[]]
  | c :: cs =>
    if c = sep then [] :: splitSep sep cs
    else
      match splitSep sep cs with
      | [] => [[c]]
      | g :: gs => (c :: g) :: gs

/-- Format check of the group part: six dash-separated groups of widths
8, 7, 7, 7, 7, 7 over the encoding alphabet. -/
def checkBody (body : List Char) : Bool :=
  let gs := splitSep '-' body
  (gs.map List.length == groupSizes) &&
    gs.all (fun g => g.all (fun c => alphabet.contains c))

/-- Format check of the mnemonic part: exactly three dash-separated nonempty
lowercase words. -/
def checkWords (mns : List Char) : Bool :=
  let ws := splitSep '-' mns
  ws.length == 3 && ws.all (fun w => !w.isEmpty && w.all (fun c => alphaLower.contains c))

/-- Format check of everything after the prefix tag: a group part and a
mnemonic part separated by one hash mark. -/
def checkRest (rest : List Char) : Bool :=
  match splitSep '#' rest with
  | [body, mns] => checkBody body && checkWords mns
  | _ => false

/-- The external identifier format of the spec: the prefix tag, six
dash-separated groups of widths 8, 7, 7, 7, 7, 7 over the encoding alphabet,
then a hash mark and exactly three dash-separated nonempty lowercase words. -/
def isLibIdFmt (s : String) : Bool :=
  match s.toList with
  | 's' :: 't' :: 'l' :: ':' :: rest => checkRest rest
  | _ => false

/-- Well-shaped mnemonic word lists: exactly three nonempty lowercase
words. -/
def goodWords (ws : List String) : Bool :=
  ws.length == 3 &&
    ws.all (fun w => !w.toList.isEmpty && w.toList.all (fun c => alphaLower.contains c))

/-- Bit j of the digest encoded by a 43-character rendering. -/
def charBitAt (cs : List Char) (j : Nat) : Nat :=
  (alphabet.indexOf (cs.getD (j / 6) 'A')) / 2 ^ (5 - j % 6) % 2

/-- Decoding of a 43-character rendering back into the 32 digest bytes. -/
def decodeDigest (cs : List Char) : Digest :=
  (List.range 32).map fun k =>
    128 * charBitAt cs (8 * k) + 64 * charBitAt cs (8 * k + 1) +
      32 * charBitAt cs (8 * k + 2) + 16 * charBitAt cs (8 * k + 3) +
      8 * charBitAt cs (8 * k + 4) + 4 * charBitAt cs (8 * k + 5) +
      2 * charBitAt cs (8 * k + 6) + charBitAt cs (8 * k + 7)

/-- The digest recovered from everything after the prefix tag: the part
before the hash mark, with the dashes removed, decoded. -/
def extractRest (rest : List Char) : Digest :=
  match splitSep '#' rest with
  | body :: _ => decodeDigest ((splitSep '-' body).flatten)
  | [] => []

/-- The digest recovered from an identifier string: strip the prefix tag,
take the part before the hash mark, remove the dashes and decode. -/
def extractDigest (s : String) : Digest :=
  match s.toList with
  | 's' :: 't' :: 'l' :: ':' :: rest => extractRest rest
  | _ => []

/-- LIB_ID_STD from src/stl.rs. -/
def LIB_ID_STD : String :=
  "stl:gonrTQ8L-cFSvdEs-F6MHXnS-MDplxjy-8_lZ5j5-_lY8MWo#delete-roman-hair"

/-- LIB_ID_STRICT_TYPES from src/stl.rs. -/
def LIB_ID_STRICT_TYPES : String :=
  "stl:6Z6S5ztA-l3_RfoW-uOIW~K0-04t7R_3-KIiByhE-1W4rPFA#henry-heart-survive"

/-- LIB_ID_BITCOIN from src/stl.rs. -/
def LIB_ID_BITCOIN : String :=
  "stl:x84tWPaG-KhMKAJm-_4wwMRK-hMLiHxT-YzwLHrW-zkyRBso#strong-samba-analyze"

/-- LIB_ID_BITCOIN_TX from src/stl.rs. -/
def LIB_ID_BITCOIN_TX : String :=
  "stl:9WwTYiP2-OadKCZP-cR0bJ_Y-qruINYX-bXZFj8Y-fsQoGgo#signal-color-cipher"

/-- Modelled from the spec: the library name constant of the standard
primitive library (supplied by the external encoding collaborator). -/
def LIB_NAME_STD : String := "Std"

/-- Modelled from the spec: the library name constant of the strict types
library (supplied by the external encoding collaborator). -/
def STRICT_TYPES_LIB : String := "StrictTypes"

/-- Modelled from the spec: the library name constant shared by the two
bitcoin libraries (supplied by the external encoding collaborator). -/
def LIB_NAME_BITCOIN : String := "Bitcoin"

/-- The 31 names transpiled by _std_sym in src/stl.rs lines 53-87, in call
order. -/
def stdTypeNames : List String :=
  ["Bool", "U1", "U2", "U3", "U4", "U5", "U6", "U7", "AsciiSym", "AsciiPrintable",
   "Alpha", "AlphaDot", "AlphaDash", "AlphaLodash",
   "AlphaCaps", "AlphaCapsDot", "AlphaCapsDash", "AlphaCapsLodash",
   "AlphaSmall", "AlphaSmallDot", "AlphaSmallDash", "AlphaSmallLodash",
   "Dec", "DecDot", "HexDecCaps", "HexDecSmall",
   "AlphaNum", "AlphaCapsNum", "AlphaNumDot", "AlphaNumDash", "AlphaNumLodash"]

/-- Modelled from the spec: the catalog of predefined primitive/alphabet
types is treated as opaque leaf type descriptors with no further structural
decomposition. -/
def stdSymbols : List TypeSymbol := stdTypeNames.map fun n => { name := n, defn := .primitive n 1 }

/-- _std_sym from src/stl.rs: build the standard library from its 31
transpiled symbols and run intra-library resolution. -/
def _std_sym : Except TranspileError SymbolicLib :=
  (stdSymbols.foldl LibBuilder.transpile (LibBuilder.withLib LIB_NAME_STD [])).compile_symbols

/-- The symbolic standard library that _std_sym resolves to. -/
def stdSymLib : SymbolicLib :=
  { name := LIB_NAME_STD, symbols := stdSymbols, dependencies := [] }

/-- std_sym from src/stl.rs: the unwrap of _std_sym, modelled with an inert
default on the error branch (the theorems show that branch is not taken). -/
def std_sym : SymbolicLib :=
  match _std_sym with
  | .ok l => l
  | .error _ => { name := "", symbols := [], dependencies := [] }

/-- std_stl from src/stl.rs: compile the resolved standard library. -/
def std_stl (hash : List Nat → Digest) : Except TranspileError TypeLib :=
  std_sym.compile hash

/-- to_dependency_types, modelled from the spec: a compiled library hands a
dependent builder its name, its identity and its exported type names. -/
def TypeLib.to_dependency_types (t : TypeLib) : Dependency :=
  { name := t.name, id := t.id, types := t.types.map (fun s => s.name) }

/-- Modelled from the spec: the transpiled shapes of the 11 strict-types
symbols of strict_types_sym in src/stl.rs lines 93-108; their concrete
structural definitions live outside the shown sources, so they are modelled
as small shapes whose references land on local names or the standard
dependency. -/
def strictTypesSymbols : List TypeSymbol :=
  [{ name := "Ident", defn := .collection 1 100 (.reference ⟨none, "AlphaNumLodash"⟩) },
   { name := "TypeName", defn := .reference ⟨none, "Ident"⟩ },
   { name := "FieldName", defn := .reference ⟨none, "Ident"⟩ },
   { name := "VariantName", defn := .reference ⟨none, "Ident"⟩ },
   { name := "LibName", defn := .reference ⟨none, "Ident"⟩ },
   { name := "SymbolRef",
     defn := .struct [("lib", .reference ⟨none, "LibName"⟩),
                      ("name", .reference ⟨none, "TypeName"⟩)] },
   { name := "TypeLib",
     defn := .struct [("name", .reference ⟨none, "LibName"⟩),
                      ("types", .collection 0 1000 (.reference ⟨none, "TypeName"⟩))] },
   { name := "TypeSysId", defn := .primitive "Byte32" 32 },
   { name := "TypeSymbol", defn := .struct [("name", .reference ⟨none, "TypeName"⟩)] },
   { name := "SymbolicSys",
     defn := .struct [("libs", .collection 0 1000 (.reference ⟨none, "TypeLib"⟩))] },
   { name := "MemoryLayout",
     defn := .collection 0 1000
       (.struct [("path", .collection 0 256 (.reference ⟨none, "FieldName"⟩)),
                 ("cls", .reference ⟨some "Std", "Alpha"⟩)]) }]

/-- The dependency handed to the strict-types builder: the compiled standard
library's dependency types. -/
def strictDependency (hash : List Nat → Digest) : Dependency :=
  match std_stl hash with
  | .ok t => t.to_dependency_types
  | .error _ => { name := "", id := [], types := [] }

/-- strict_types_sym from src/stl.rs: build the strict-types library on top
of the compiled standard library and run intra-library resolution. -/
def strict_types_sym_build (hash : List Nat → Digest) : Except TranspileError SymbolicLib :=
  (strictTypesSymbols.foldl LibBuilder.transpile
    (LibBuilder.withLib STRICT_TYPES_LIB [strictDependency hash])).compile_symbols

/-- The symbolic strict-types library that strict_types_sym resolves to. -/
def strictSymLib (hash : List Nat → Digest) : SymbolicLib :=
  { name := STRICT_TYPES_LIB, symbols := strictTypesSymbols,
    dependencies := [strictDependency hash] }

/-- The 13 names transpiled by bitcoin_stl in src/stl.rs lines 112-129, in
call order. -/
def bitcoinTypeNames : List String :=
  ["CompressedPublicKey", "LeafScript", "LeafVersion", "OutPoint", "ScriptBuf",
   "ScriptBytes", "TapNodeHash", "Transaction", "TweakedPublicKey", "TxIn",
   "TxOut", "Txid", "XOnlyPublicKey"]

/-- Modelled from the spec: the bitcoin types are opaque transpilable leaf
descriptors supplied by the external encoding collaborator. -/
def bitcoinSymbols : List TypeSymbol :=
  bitcoinTypeNames.map fun n => { name := n, defn := .primitive n 1 }

/-- Finishing a builder directly into a compiled library (LibBuilder
compile): a recorded collision is rejected, then the assembled library
compiles. -/
def LibBuilder.compileLib (hash : List Nat → Digest) (b : LibBuilder) :
    Except TranspileError TypeLib :=
  match b.collision with
  | some n => .error (.nameCollision n)
  | none => b.toLib.compile hash

/-- bitcoin_stl from src/stl.rs: the 13 bitcoin symbols under the bitcoin
library name. -/
def bitcoin_stl (hash : List Nat → Digest) : Except TranspileError TypeLib :=
  (bitcoinSymbols.foldl LibBuilder.transpile
    (LibBuilder.withLib LIB_NAME_BITCOIN [])).compileLib hash

/-- bitcoin_tx_stl from src/stl.rs: the single Transaction symbol under the
same bitcoin library name. -/
def bitcoin_tx_stl (hash : List Nat → Digest) : Except TranspileError TypeLib :=
  ([{ name := "Transaction", defn := .primitive "Transaction" 1 }].foldl LibBuilder.transpile
    (LibBuilder.withLib LIB_NAME_BITCOIN [])).compileLib hash

/-- The symbolic library underlying bitcoin_stl. -/
def bitcoinSymLib : SymbolicLib :=
  { name := LIB_NAME_BITCOIN, symbols := bitcoinSymbols, dependencies := [] }

/-- The symbolic library underlying bitcoin_tx_stl. -/
def bitcoinTxSymLib : SymbolicLib :=
  { name := LIB_NAME_BITCOIN,
    symbols := [{ name := "Transaction", defn := .primitive "Transaction" 1 }],
    dependencies := [] }

/-- The digest whose rendering is the group part of LIB_ID_STD; pinned by the
repository's std_lib_id test fixture. -/
def stdDigest : Digest :=
  [130, 137, 235, 77, 15, 11, 112, 84, 175, 116, 75, 5, 232, 193, 215, 157,
   35, 3, 166, 92, 99, 203, 207, 229, 103, 152, 249, 254, 86, 60, 49, 106]

/-- The digest whose rendering is the group part of LIB_ID_STRICT_TYPES;
pinned by the strict_types_lib_id test fixture. -/
def strictTypesDigest : Digest :=
  [233, 158, 146, 231, 59, 64, 151, 127, 209, 126, 133, 174, 56, 133, 190, 43,
   77, 56, 183, 180, 127, 220, 162, 34, 7, 40, 68, 213, 110, 43, 60, 80]

/-- The digest whose rendering is the group part of LIB_ID_BITCOIN; pinned by
the bitcoin_lib_id test fixture. -/
def bitcoinDigest : Digest :=
  [199, 206, 45, 88, 246, 134, 42, 19, 10, 0, 153, 191, 227, 12, 12, 68,
   168, 76, 46, 33, 241, 77, 140, 240, 44, 122, 214, 206, 76, 145, 6, 202]

/-- The digest whose rendering is the group part of LIB_ID_BITCOIN_TX; pinned
by the bitcoin_tx_lib_id test fixture. -/
def bitcoinTxDigest : Digest :=
  [245, 108, 19, 98, 35, 246, 57, 167, 74, 9, 147, 220, 71, 70, 201, 253,
   138, 171, 184, 131, 88, 93, 181, 217, 22, 63, 24, 126, 196, 40, 26, 10]

/-- The resolution-relevant projection of the dependency list: names and
exported types (the dependency identity is not consulted by resolution). -/
def SymbolicLib.depProj (l : SymbolicLib) : List (String × List String) :=
  l.dependencies.map fun d => (d.name, d.types)

/-- The identity-erased twin of the strict-types library, used to decide its
resolution with a closed term. -/
def strictSymLibP : SymbolicLib :=
  { name := STRICT_TYPES_LIB, symbols := strictTypesSymbols,
    dependencies := [{ name := "Std", id := [], types := stdTypeNames }] }

/-- A demonstration library whose single symbol User references an
undeclared symbol Missing. -/
def demoMissingLib : SymbolicLib :=
  { name := "Demo",
    symbols := [{ name := "User", defn := .struct [("f", .reference ⟨none, "Missing"⟩)] }],
    dependencies := [] }

/-- The demonstration library after adding the missing symbol locally. -/
def demoFixedLib : SymbolicLib :=
  { name := "Demo",
    symbols := [{ name := "User", defn := .struct [("f", .reference ⟨none, "Missing"⟩)] },
                { name := "Missing", defn := .primitive "U8" 1 }],
    dependencies := [] }

/-- The demonstration library after instead declaring a dependency exporting
the missing symbol. -/
def demoDepFixedLib : SymbolicLib :=
  { name := "Demo",
    symbols := [{ name := "User", defn := .struct [("f", .reference ⟨none, "Missing"⟩)] }],
    dependencies := [{ name := "Dep", id := [7], types := ["Missing"] }] }

/-- A digest function pinned to the standard library fixture. -/
def hashW : List Nat → Digest :=
  fun c => if c = canonical stdSymLib then stdDigest else List.replicate 32 0

/-- A mnemonic derivation pinned to the standard library fixture. -/
def mnemW : Digest → List String :=
  fun d => if d = stdDigest then ["delete", "roman", "hair"] else ["aa", "bb", "cc"]

/-- A single-symbol library used to demonstrate content sensitivity. -/
def mutBase : SymbolicLib :=
  { name := "L",
    symbols :=
      [{ name := "T",
         defn := .struct [("a", .primitive "U8" 1), ("b", .primitive "U16" 2)] }],
    dependencies := [] }

/-- mutBase with one field renamed. -/
def mutFieldName : SymbolicLib :=
  { name := "L",
    symbols :=
      [{ name := "T",
         defn := .struct [("c", .primitive "U8" 1), ("b", .primitive "U16" 2)] }],
    dependencies := [] }

/-- mutBase with its two fields swapped. -/
def mutFieldOrder : SymbolicLib :=
  { name := "L",
    symbols :=
      [{ name := "T",
         defn := .struct [("b", .primitive "U16" 2), ("a", .primitive "U8" 1)] }],
    dependencies := [] }

/-- A single-enum library used to demonstrate variant-order sensitivity. -/
def mutEnumBase : SymbolicLib :=
  { name := "L",
    symbols :=
      [{ name := "T",
         defn := .enum [("x", .primitive "Unit" 0), ("y", .primitive "U8" 1)] }],
    dependencies := [] }

/-- mutEnumBase with its two variants swapped. -/
def mutEnumOrder : SymbolicLib :=
  { name := "L",
    symbols :=
      [{ name := "T",
         defn := .enum [("y", .primitive "U8" 1), ("x", .primitive "Unit" 0)] }],
    dependencies := [] }

/-- A library with one declared dependency. -/
def mutDepBase : SymbolicLib :=
  { name := "L", symbols := [{ name := "T", defn := .primitive "U8" 1 }],
    dependencies := [{ name := "D", id := [1], types := ["X"] }] }

/-- mutDepBase with the dependency identity changed. -/
def mutDepId : SymbolicLib :=
  { name := "L", symbols := [{ name := "T", defn := .primitive "U8" 1 }],
    dependencies := [{ name := "D", id := [2], types := ["X"] }] }

/-- mutBase with one extra symbol. -/
def mutSymSet : SymbolicLib :=
  { name := "L",
    symbols :=
      [{ name := "T",
         defn := .struct [("a", .primitive "U8" 1), ("b", .primitive "U16" 2)] },
       { name := "U", defn := .primitive "U8" 1 }],
    dependencies := [] }

/-- A digest function separating the two mutation demonstration libraries. -/
def hashW3 : List Nat → Digest :=
  fun c => if c = canonical mutBase then List.replicate 32 0 else List.replicate 31 0 ++ [1]

/-- A fixed well-shaped mnemonic derivation. -/
def mnemW3 : Digest → List String := fun _ => ["aa", "bb", "cc"]

mutual

theorem typeLeaves_length (path : List String) (t : Ty) :
    (typeLeaves path t).length = leafCount t := by
  cases t with
  | primitive cls sz => simp [typeLeaves, leafCount]
  | reference r => simp [typeLeaves, leafCount]
  | struct fs => simp [typeLeaves, leafCount, fieldLeaves_length]
  | enum vs => simp [typeLeaves, leafCount, fieldLeaves_length]
  | collection lo hi e => simp [typeLeaves, leafCount, typeLeaves_length]

theorem fieldLeaves_length (path : List String) (fs : List (String × Ty)) :
    (fieldLeaves path fs).length = fieldsLeafCount fs := by
  cases fs with
  | nil => simp [fieldLeaves, fieldsLeafCount]
  | cons f fs =>
    simp [fieldLeaves, fieldsLeafCount, typeLeaves_length, fieldLeaves_length]

end

theorem tySize_pos (t : Ty) : 1 ≤ tySize t := by
  cases t <;> simp [tySize] <;> omega

theorem leavesFuel_adequate : ∀ n : Nat,
    (∀ t path, tySize t ≤ n → typeLeavesFuel n path t = some (typeLeaves path t)) ∧
    (∀ fs path, fieldsSize fs + 1 ≤ n →
      fieldLeavesFuel n path fs = some (fieldLeaves path fs)) := by
  intro n
  induction n with
  | zero =>
    constructor
    · intro t path h
      exact absurd h (by have := tySize_pos t; omega)
    · intro fs path h
      exact absurd h (by omega)
  | succ n ih =>
    constructor
    · intro t path h
      cases t with
      | primitive cls sz => simp [typeLeavesFuel, typeLeaves]
      | reference r => simp [typeLeavesFuel, typeLeaves]
      | struct fs =>
        have hb : fieldsSize fs + 1 ≤ n := by simp [tySize] at h; omega
        simp [typeLeavesFuel, typeLeaves, ih.2 fs path hb]
      | enum vs =>
        have hb : fieldsSize vs + 1 ≤ n := by simp [tySize] at h; omega
        simp [typeLeavesFuel, typeLeaves, ih.2 vs path hb]
      | collection lo hi e =>
        have hb : tySize e ≤ n := by simp [tySize] at h; omega
        simp [typeLeavesFuel, typeLeaves, ih.1 e path hb]
    · intro fs path h
      cases fs with
      | nil => simp [fieldLeavesFuel, fieldLeaves]
      | cons f fs =>
        have h1 : tySize f.2 ≤ n := by simp [fieldsSize] at h; omega
        have h2 : fieldsSize fs + 1 ≤ n := by
          have := tySize_pos f.2
          simp [fieldsSize] at h; omega
        simp [fieldLeavesFuel, fieldLeaves, ih.1 f.2 (path ++ [f.1]) h1,
          ih.2 fs path h2]

theorem fieldLeaves_eq_join (path : List String) (fs : List (String × Ty)) :
    fieldLeaves path fs = (fs.map fun f => typeLeaves (path ++ [f.1]) f.2).flatten := by
  induction fs with
  | nil => simp [fieldLeaves]
  | cons f fs ih => simp [fieldLeaves, ih]

theorem bigTy_leafCount : ∀ n, leafCount (bigTy n) = 2 ^ n := by
  intro n
  induction n with
  | zero => simp [bigTy, leafCount]
  | succ n ih => simp [bigTy, leafCount, fieldsLeafCount, ih]; ring

/-- Claim C4: for every finite well-formed type within the capacity bound, the
MemoryLayout produced by the conversion from a TypeTree holds exactly one
TypeInfo item per leaf/primitive node reachable by structural traversal. -/
theorem memoryLayout_item_count (t : TypeTree) (h : leafCount t ≤ LARGE_VEC_MAX_LEN) :
    MemoryLayout.fromTypeTree t = .ok { items := typeLeaves [] t } ∧
    (typeLeaves [] t).length = leafCount t := by
  refine ⟨?_, typeLeaves_length [] t⟩
  rw [MemoryLayout.fromTypeTree]
  rw [largeVecExtend]
  simp [MemoryLayout.new, typeTreeItems, typeLeaves_length, h]

theorem memoryLayout_item_count_witness :
    MemoryLayout.fromTypeTree demoTree =
      .ok { items := [{ path := ["x"], cls := "U8", size := 1 },
                      { path := ["y", "inner"], cls := "Bool", size := 1 }] } ∧
    leafCount demoTree = 2 :=
  ⟨((memoryLayout_item_count demoTree (by decide)).1).trans (by decide), by decide⟩

/-- Claim C5: the layout preserves declaration order: the leaf sequence of a
struct is the in-order concatenation of its fields' leaf sequences, and the
leaf sequence of an enum is the in-order concatenation of its variants'
leaf sequences. -/
theorem memoryLayout_declaration_order (path : List String) (fs : List (String × Ty)) :
    typeLeaves path (.struct fs) =
      (fs.map fun f => typeLeaves (path ++ [f.1]) f.2).flatten ∧
    typeLeaves path (.enum fs) =
      (fs.map fun f => typeLeaves (path ++ [f.1]) f.2).flatten := by
  constructor
  · rw [typeLeaves]; exact fieldLeaves_eq_join path fs
  · rw [typeLeaves]; exact fieldLeaves_eq_join path fs

/-- Claim C6: the structural flattening terminates for every type graph: the
fuel-indexed traversal reaches the result of the recursive traversal within a
structurally determined fuel bound, and recursion through indirection is not
unrolled: a collection of a reference (such as a collection of self) is
recorded as exactly one sized slot. -/
theorem memoryLayout_terminates (t : Ty) (path : List String) :
    typeLeavesFuel (tySize t) path t = some (typeLeaves path t) ∧
    (∀ lo hi r, typeLeaves path (.collection lo hi (.reference r)) = [refInfo path r]) := by
  constructor
  · exact (leavesFuel_adequate (tySize t)).1 t path (Nat.le_refl _)
  · intro lo hi r; rw [typeLeaves, typeLeaves]

/-- Claim C7: when the flattened item sequence exceeds the bounded capacity of
the item container the conversion aborts fatally with the expect message
instead of returning a partial layout, and for every tree within the bound no
such abort occurs. -/
theorem memoryLayout_capacity (t : TypeTree) :
    (leafCount t ≤ LARGE_VEC_MAX_LEN →
      MemoryLayout.fromTypeTree t = .ok { items := typeLeaves [] t }) ∧
    (LARGE_VEC_MAX_LEN < leafCount t →
      MemoryLayout.fromTypeTree t = .error "type layout exceeds billions of fields") := by
  constructor
  · intro h
    rw [MemoryLayout.fromTypeTree, largeVecExtend]
    simp [MemoryLayout.new, typeTreeItems, typeLeaves_length, h]
  · intro h
    rw [MemoryLayout.fromTypeTree, largeVecExtend]
    have hno : ¬ (MemoryLayout.new.items.length + (typeTreeItems t).length ≤ LARGE_VEC_MAX_LEN) := by
      simp [MemoryLayout.new, typeTreeItems, typeLeaves_length]
      omega
    simp [hno]

theorem memoryLayout_capacity_witness :
    MemoryLayout.fromTypeTree (bigTy 32) =
      .error "type layout exceeds billions of fields" ∧
    MemoryLayout.fromTypeTree demoTree =
      .ok { items := typeLeaves [] demoTree } :=
  ⟨(memoryLayout_capacity (bigTy 32)).2
      (by rw [bigTy_leafCount]; rw [LARGE_VEC_MAX_LEN]; omega),
    (memoryLayout_capacity demoTree).1 (by decide)⟩

/-- Claim C9: the two MemoryLayout conversions agree: converting a TypeTree by
value and converting it by reference produce equal results. -/
theorem memoryLayout_from_val_ref_agree (t : TypeTree) :
    MemoryLayout.fromTypeTree t = MemoryLayout.fromTypeTreeRef t := rfl

/-! ### Builder and resolution lemmas -/

theorem transpile_fresh (b : LibBuilder) (s : TypeSymbol)
    (h : b.symbols.any (fun t => t.name == s.name) = false) :
    b.transpile s = { b with symbols := b.symbols ++ [s] } := by
  simp only [LibBuilder.transpile, h]
  simp

theorem any_map_fun {α β : Type} (l : List α) (f : α → β) (p : β → Bool) :
    (l.map f).any p = l.any fun x => p (f x) := by
  induction l with
  | nil => rfl
  | cons a l ih => simp [List.any_cons, ih]

theorem foldl_transpile (syms : List TypeSymbol) : ∀ (b : LibBuilder),
    ((b.symbols ++ syms).map TypeSymbol.name).Nodup →
    syms.foldl LibBuilder.transpile b = { b with symbols := b.symbols ++ syms } := by
  induction syms with
  | nil => intro b _; simp
  | cons s rest ih =>
    intro b hnd
    have hnd' : (b.symbols.map TypeSymbol.name ++ (s :: rest).map TypeSymbol.name).Nodup := by
      rw [← List.map_append]; exact hnd
    have hfresh : b.symbols.any (fun t => t.name == s.name) = false := by
      simp only [List.any_eq_false]
      intro t ht
      simp only [beq_iff_eq]
      have hmem1 : t.name ∈ b.symbols.map TypeSymbol.name := List.mem_map_of_mem _ ht
      have hdisj := (List.nodup_append.mp hnd').2.2
      intro hEq
      exact hdisj hmem1 (by simp [hEq])
    rw [List.foldl_cons, transpile_fresh b s hfresh]
    rw [ih _ (by simpa using hnd)]
    simp

theorem resolves_congr (l l' : SymbolicLib) (hs : l.symbols = l'.symbols)
    (hd : l.depProj = l'.depProj) (r : SymbolRef) : l.resolves r = l'.resolves r := by
  unfold SymbolicLib.resolves
  have hany : ∀ p : String × List String → Bool,
      l.dependencies.any (fun d => p (d.name, d.types)) =
        l'.dependencies.any (fun d => p (d.name, d.types)) := by
    intro p
    have h1 : l.depProj.any p = l.dependencies.any (fun d => p (d.name, d.types)) :=
      any_map_fun l.dependencies _ p
    have h2 : l'.depProj.any p = l'.dependencies.any (fun d => p (d.name, d.types)) :=
      any_map_fun l'.dependencies _ p
    rw [← h1, ← h2, hd]
  cases r.lib_name with
  | none =>
    rw [hs]
    have := hany (fun q => q.2.contains r.type_name)
    simpa using congrArg (fun b => (l'.symbols.any fun s => s.name == r.type_name) || b) this
  | some ln =>
    exact hany (fun q => q.1 == ln && q.2.contains r.type_name)

theorem firstUnresolvedIn_congr (l l' : SymbolicLib) (hs : l.symbols = l'.symbols)
    (hd : l.depProj = l'.depProj) :
    ∀ syms, firstUnresolvedIn l syms = firstUnresolvedIn l' syms := by
  intro syms
  induction syms with
  | nil => rfl
  | cons s rest ih =>
    have hfun : (fun r => !(l.resolves r)) = (fun r => !(l'.resolves r)) := by
      funext r; rw [resolves_congr l l' hs hd]
    simp only [firstUnresolvedIn, hfun, ih]

theorem firstUnresolved_congr (l l' : SymbolicLib) (hs : l.symbols = l'.symbols)
    (hd : l.depProj = l'.depProj) : l.firstUnresolved = l'.firstUnresolved := by
  unfold SymbolicLib.firstUnresolved
  rw [firstUnresolvedIn_congr l l' hs hd, hs]

theorem strictDependency_eq (hash : List Nat → Digest) :
    strictDependency hash =
      { name := LIB_NAME_STD, id := libId hash stdSymLib, types := stdTypeNames } := rfl

theorem strictSymLib_firstUnresolved (hash : List Nat → Digest) :
    (strictSymLib hash).firstUnresolved = none := by
  have h := firstUnresolved_congr (strictSymLib hash) strictSymLibP rfl (by
    rw [strictSymLib, strictDependency_eq]
    rfl)
  rw [h]
  decide

theorem build_compile_symbols (name : String) (deps : List Dependency)
    (syms : List TypeSymbol) (hnd : (syms.map TypeSymbol.name).Nodup)
    (hres : SymbolicLib.firstUnresolved
      { name := name, symbols := syms, dependencies := deps } = none) :
    (syms.foldl LibBuilder.transpile (LibBuilder.withLib name deps)).compile_symbols =
      .ok { name := name, symbols := syms, dependencies := deps } := by
  have hb : syms.foldl LibBuilder.transpile (LibBuilder.withLib name deps) =
      { name := name, dependencies := deps, symbols := [] ++ syms, collision := none } :=
    foldl_transpile syms (LibBuilder.withLib name deps) (by simpa [LibBuilder.withLib] using hnd)
  have hres' : SymbolicLib.firstUnresolved ⟨name, [] ++ syms, deps⟩ = none := by
    simpa using hres
  rw [hb]
  show SymbolicLib.compile_symbols ⟨name, [] ++ syms, deps⟩ = _
  rw [SymbolicLib.compile_symbols, hres']
  simp

/-- Claim C10: the standard-library constructors are total: _std_sym returns
Ok for the fixed catalog of 31 distinct primitive/alphabet names, so the
unwraps inside std_sym, std_stl, strict_types_sym and strict_types_stl never
hit an error value, for every pluggable digest function. -/
theorem std_constructors_total :
    _std_sym = .ok stdSymLib ∧
    stdTypeNames.length = 31 ∧
    stdTypeNames.Nodup ∧
    (∀ hash : List Nat → Digest,
      std_stl hash = .ok { id := libId hash stdSymLib, name := LIB_NAME_STD,
                           types := stdSymbols, dependencies := [] }) ∧
    (∀ hash : List Nat → Digest, strict_types_sym_build hash = .ok (strictSymLib hash)) ∧
    (∀ hash : List Nat → Digest,
      (strictSymLib hash).compile hash =
        .ok { id := libId hash (strictSymLib hash), name := STRICT_TYPES_LIB,
              types := strictTypesSymbols, dependencies := [libId hash stdSymLib] }) := by
  refine ⟨rfl, by decide, by decide, fun _ => rfl, ?_, ?_⟩
  · intro hash
    exact build_compile_symbols STRICT_TYPES_LIB [strictDependency hash] strictTypesSymbols
      (by decide) (strictSymLib_firstUnresolved hash)
  · intro hash
    rw [SymbolicLib.compile, strictSymLib_firstUnresolved hash]
    rfl

/-! ### Resolution error reporting -/

theorem firstUnresolvedIn_of_unresolved (l : SymbolicLib) :
    ∀ syms : List TypeSymbol, ∀ s ∈ syms, ∀ r ∈ tyRefs s.defn, l.resolves r = false →
    ∃ referrer missing, firstUnresolvedIn l syms = some (referrer, missing) ∧
      ∃ s2 ∈ syms, s2.name = referrer ∧ missing ∈ tyRefs s2.defn ∧
        l.resolves missing = false := by
  intro syms
  induction syms with
  | nil => intro s hs; exact absurd hs (List.not_mem_nil s)
  | cons t rest ih =>
    intro s hs r hr hres
    cases hfind : (tyRefs t.defn).find? (fun r => !(l.resolves r)) with
    | some r2 =>
      refine ⟨t.name, r2, ?_, t, List.mem_cons_self t rest, rfl, ?_, ?_⟩
      · simp [firstUnresolvedIn, hfind]
      · exact List.mem_of_find?_eq_some hfind
      · have := List.find?_some hfind
        simpa using this
    | none =>
      have hall := List.find?_eq_none.mp hfind
      rcases List.mem_cons.mp hs with hst | hsr
      · subst hst
        have := hall r hr
        simp [hres] at this
      · rcases ih s hsr r hr hres with ⟨referrer, missing, heq, s2, hs2, hrest⟩
        exact ⟨referrer, missing, by simp [firstUnresolvedIn, hfind, heq],
          s2, List.mem_cons_of_mem t hs2, hrest⟩

theorem firstUnresolvedIn_none (l : SymbolicLib) :
    ∀ syms : List TypeSymbol,
    (∀ s ∈ syms, ∀ r ∈ tyRefs s.defn, l.resolves r = true) →
    firstUnresolvedIn l syms = none := by
  intro syms
  induction syms with
  | nil => intro _; rfl
  | cons t rest ih =>
    intro h
    have hfind : (tyRefs t.defn).find? (fun r => !(l.resolves r)) = none := by
      rw [List.find?_eq_none]
      intro r hr
      simp [h t (List.mem_cons_self t rest) r hr]
    simp [firstUnresolvedIn, hfind, ih fun s hs => h s (List.mem_cons_of_mem t hs)]

/-- Claim C8: compile_symbols fails with a recoverable resolution error value
naming an actually-missing symbol and its referrer whenever the library holds
a reference that resolves neither locally nor through a declared dependency;
it succeeds when every reference resolves, and in particular the
demonstration library with an undeclared reference fails naming that
reference, while the same library fixed by adding the missing symbol or by
declaring a dependency exporting it succeeds. -/
theorem compile_symbols_resolution :
    (∀ (l : SymbolicLib) (s : TypeSymbol) (r : SymbolRef),
      s ∈ l.symbols → r ∈ tyRefs s.defn → l.resolves r = false →
      ∃ referrer missing, l.compile_symbols = .error (.unresolvedRef referrer missing) ∧
        ∃ s2 ∈ l.symbols, s2.name = referrer ∧ missing ∈ tyRefs s2.defn ∧
          l.resolves missing = false) ∧
    (∀ l : SymbolicLib, (∀ s ∈ l.symbols, ∀ r ∈ tyRefs s.defn, l.resolves r = true) →
      l.compile_symbols = .ok l) ∧
    demoMissingLib.compile_symbols = .error (.unresolvedRef "User" ⟨none, "Missing"⟩) ∧
    demoFixedLib.compile_symbols = .ok demoFixedLib ∧
    demoDepFixedLib.compile_symbols = .ok demoDepFixedLib := by
  refine ⟨?_, ?_, rfl, rfl, rfl⟩
  · intro l s r hs hr hres
    rcases firstUnresolvedIn_of_unresolved l l.symbols s hs r hr hres with
      ⟨referrer, missing, heq, hprops⟩
    refine ⟨referrer, missing, ?_, hprops⟩
    rw [SymbolicLib.compile_symbols]
    rw [show l.firstUnresolved = some (referrer, missing) from heq]
  · intro l h
    rw [SymbolicLib.compile_symbols]
    rw [show l.firstUnresolved = none from firstUnresolvedIn_none l l.symbols h]

theorem compile_symbols_resolution_witness :
    ∃ referrer missing,
      demoMissingLib.compile_symbols = .error (.unresolvedRef referrer missing) ∧
      ∃ s2 ∈ demoMissingLib.symbols, s2.name = referrer ∧ missing ∈ tyRefs s2.defn ∧
        demoMissingLib.resolves missing = false :=
  compile_symbols_resolution.1 demoMissingLib
    { name := "User", defn := .struct [("f", .reference ⟨none, "Missing"⟩)] }
    ⟨none, "Missing"⟩ (by simp [demoMissingLib]) (by decide) (by decide)

/-! ### Determinism of the content-derived identifier -/

theorem sort_perm_nat (a b : List Nat) (h : a.Perm b) :
    List.insertionSort (· ≤ ·) a = List.insertionSort (· ≤ ·) b :=
  List.eq_of_perm_of_sorted
    ((List.perm_insertionSort _ _).trans (h.trans (List.perm_insertionSort _ _).symm))
    (List.sorted_insertionSort _ _) (List.sorted_insertionSort _ _)

theorem canonical_perm (l1 l2 : SymbolicLib) (hn : l1.name = l2.name)
    (hs : l1.symbols.Perm l2.symbols) (hd : l1.dependencies.Perm l2.dependencies) :
    canonical l1 = canonical l2 := by
  unfold canonical
  rw [hn, sort_perm_nat _ _ (hs.map fun s => natKey (serSym s)),
    sort_perm_nat _ _ (hd.map fun d => natKey (serDep d))]

set_option maxRecDepth 40000 in
/-- Claim C1: identifier derivation is deterministic: for any digest and
mnemonic derivation, two libraries holding the same name, the same symbols
and the same dependencies, in any order, render identical identifier
strings; and with the digest and mnemonic values pinned by the repository's
test fixtures, the four stl constructors render exactly their pinned
identifier constants. -/
theorem libId_deterministic :
    (∀ (hash : List Nat → Digest) (mnem : Digest → List String) (l1 l2 : SymbolicLib),
      l1.name = l2.name → l1.symbols.Perm l2.symbols →
      l1.dependencies.Perm l2.dependencies →
      idString hash mnem l1 = idString hash mnem l2) ∧
    (∀ (hash : List Nat → Digest) (mnem : Digest → List String),
      hash (canonical stdSymLib) = stdDigest →
      mnem stdDigest = ["delete", "roman", "hair"] →
      idString hash mnem stdSymLib = LIB_ID_STD) ∧
    (∀ (hash : List Nat → Digest) (mnem : Digest → List String),
      hash (canonical (strictSymLib hash)) = strictTypesDigest →
      mnem strictTypesDigest = ["henry", "heart", "survive"] →
      idString hash mnem (strictSymLib hash) = LIB_ID_STRICT_TYPES) ∧
    (∀ (hash : List Nat → Digest) (mnem : Digest → List String),
      hash (canonical bitcoinSymLib) = bitcoinDigest →
      mnem bitcoinDigest = ["strong", "samba", "analyze"] →
      idString hash mnem bitcoinSymLib = LIB_ID_BITCOIN) ∧
    (∀ (hash : List Nat → Digest) (mnem : Digest → List String),
      hash (canonical bitcoinTxSymLib) = bitcoinTxDigest →
      mnem bitcoinTxDigest = ["signal", "color", "cipher"] →
      idString hash mnem bitcoinTxSymLib = LIB_ID_BITCOIN_TX) := by
  refine ⟨?_, ?_, ?_, ?_, ?_⟩
  · intro hash mnem l1 l2 hn hs hd
    rw [idString, idString, canonical_perm l1 l2 hn hs hd]
  · intro hash mnem h1 h2
    rw [idString, h1, h2]
    decide
  · intro hash mnem h1 h2
    rw [idString, h1, h2]
    decide
  · intro hash mnem h1 h2
    rw [idString, h1, h2]
    decide
  · intro hash mnem h1 h2
    rw [idString, h1, h2]
    decide

set_option maxRecDepth 40000 in
theorem libId_deterministic_witness :
    idString hashW mnemW stdSymLib = LIB_ID_STD ∧
    idString hashW mnemW
        { name := LIB_NAME_STD, symbols := stdSymbols.reverse, dependencies := [] } =
      idString hashW mnemW stdSymLib := by
  constructor
  · exact libId_deterministic.2.1 hashW mnemW (by simp [hashW]) (by simp [mnemW])
  · exact libId_deterministic.1 hashW mnemW _ stdSymLib rfl
      (List.reverse_perm stdSymbols) (List.Perm.refl _)

/-! ### Rendering and parsing of the identifier format -/

theorem splitSep_nonmem (sep : Char) (cs : List Char) (h : sep ∉ cs) :
    splitSep sep cs = [cs] := by
  induction cs with
  | nil => rfl
  | cons c cs ih =>
    have hc : ¬ c = sep := fun hEq => h (by simp [hEq])
    have hcs : sep ∉ cs := fun hm => h (List.mem_cons_of_mem c hm)
    simp [splitSep, hc, ih hcs]

theorem splitSep_append (sep : Char) (xs ys : List Char) (h : sep ∉ xs) :
    splitSep sep (xs ++ sep :: ys) = xs :: splitSep sep ys := by
  induction xs with
  | nil => simp [splitSep]
  | cons x xs ih =>
    have hx : ¬ x = sep := fun hEq => h (by simp [hEq])
    have hxs : sep ∉ xs := fun hm => h (List.mem_cons_of_mem x hm)
    rw [List.cons_append]
    simp [splitSep, hx, ih hxs]

theorem joinSep_mem (sep : Char) (gs : List (List Char)) (c : Char)
    (h : c ∈ joinSep sep gs) : c = sep ∨ ∃ g ∈ gs, c ∈ g := by
  induction gs with
  | nil => simp [joinSep] at h
  | cons g gs ih =>
    cases gs with
    | nil => exact Or.inr ⟨g, by simp, by simpa [joinSep] using h⟩
    | cons g2 t2 =>
      rw [joinSep] at h
      rcases List.mem_append.mp h with hg | hrest
      · exact Or.inr ⟨g, by simp, hg⟩
      · rcases List.mem_cons.mp hrest with hceq | hj
        · exact Or.inl hceq
        · rcases ih hj with h1 | ⟨g3, hg3, hcg3⟩
          · exact Or.inl h1
          · exact Or.inr ⟨g3, List.mem_cons_of_mem g hg3, hcg3⟩

theorem splitSep_joinSep (sep : Char) (gs : List (List Char)) (hne : gs ≠ [])
    (h : ∀ g ∈ gs, sep ∉ g) : splitSep sep (joinSep sep gs) = gs := by
  induction gs with
  | nil => exact absurd rfl hne
  | cons g gs ih =>
    cases gs with
    | nil => exact splitSep_nonmem sep g (h g (by simp))
    | cons g2 t =>
      rw [joinSep, splitSep_append sep g _ (h g (by simp))]
      rw [ih (by simp) fun x hx => h x (List.mem_cons_of_mem g hx)]

theorem splitSizes_subset (ns : List Nat) :
    ∀ cs g, g ∈ splitSizes ns cs → ∀ c ∈ g, c ∈ cs := by
  induction ns with
  | nil => intro cs g hg; simp [splitSizes] at hg
  | cons n ns ih =>
    intro cs g hg c hc
    rw [splitSizes] at hg
    rcases List.mem_cons.mp hg with h1 | h2
    · exact List.take_subset n cs (h1 ▸ hc)
    · exact List.drop_subset n cs (ih _ g h2 c hc)

theorem flatten_splitSizes (ns : List Nat) :
    ∀ cs, (splitSizes ns cs).flatten = cs.take ns.sum := by
  induction ns with
  | nil => intro cs; simp [splitSizes]
  | cons n ns ih =>
    intro cs
    rw [splitSizes, List.flatten_cons, ih, List.sum_cons, List.take_add]

theorem getD_mem {α : Type} (l : List α) (i : Nat) (c : α) (h : i < l.length) :
    l.getD i c ∈ l := by
  rw [List.getD_eq_getElem l c h]
  exact List.getElem_mem h

theorem range_map_getD {α : Type} (f : Nat → α) (n i : Nat) (h : i < n) (c : α) :
    ((List.range n).map f).getD i c = f i := by
  have hlen : i < ((List.range n).map f).length := by simpa using h
  rw [List.getD_eq_getElem _ c hlen]
  simp

theorem digestBit_lt (d : Digest) (j : Nat) : digestBit d j < 2 :=
  Nat.mod_lt _ (by omega)

theorem charIndexAt_lt (d : Digest) (i : Nat) : charIndexAt d i < 64 := by
  have h0 := digestBit_lt d (6 * i)
  have h1 := digestBit_lt d (6 * i + 1)
  have h2 := digestBit_lt d (6 * i + 2)
  have h3 := digestBit_lt d (6 * i + 3)
  have h4 := digestBit_lt d (6 * i + 4)
  have h5 := digestBit_lt d (6 * i + 5)
  rw [charIndexAt]
  omega

theorem encodeDigest_length (d : Digest) : (encodeDigest d).length = 43 := by
  simp [encodeDigest]

theorem encodeDigest_mem_alphabet (d : Digest) : ∀ c ∈ encodeDigest d, c ∈ alphabet := by
  intro c hc
  rw [encodeDigest] at hc
  rcases List.mem_map.mp hc with ⟨i, _, hfi⟩
  rw [← hfi, digestChar]
  exact getD_mem alphabet _ 'A' (by
    have := charIndexAt_lt d i
    rw [show alphabet.length = 64 from by decide]
    exact this)

theorem display_groups_no_dash (d : Digest) :
    ∀ g ∈ splitSizes groupSizes (encodeDigest d), '-' ∉ g := by
  intro g hg hmem
  have halpha := encodeDigest_mem_alphabet d '-'
    (splitSizes_subset groupSizes (encodeDigest d) g hg '-' hmem)
  exact (by decide : ('-' ∈ alphabet) → False) halpha

theorem displayChars_no_hashmark (d : Digest) : '#' ∉ displayChars d := by
  intro h
  rcases joinSep_mem '-' _ '#' h with h1 | ⟨g, hg, hcg⟩
  · exact (by decide : ¬ ('#' = '-')) h1
  · have halpha := encodeDigest_mem_alphabet d '#'
      (splitSizes_subset groupSizes (encodeDigest d) g hg '#' hcg)
    exact (by decide : ('#' ∈ alphabet) → False) halpha

theorem goodWords_facts (ws : List String) (h : goodWords ws = true) :
    ws.length = 3 ∧ ∀ w ∈ ws, w.toList ≠ [] ∧ ∀ c ∈ w.toList, c ∈ alphaLower := by
  rw [goodWords, Bool.and_eq_true] at h
  refine ⟨by simpa using h.1, ?_⟩
  intro w hw
  have := (List.all_eq_true.mp h.2) w hw
  rw [Bool.and_eq_true] at this
  constructor
  · intro hnil
    have h1 := this.1
    rw [hnil] at h1
    simp at h1
  · intro c hc
    have h2 := (List.all_eq_true.mp this.2) c hc
    simpa using h2

theorem wordChars_no_hashmark (ws : List String) (h : goodWords ws = true) :
    '#' ∉ joinSep '-' (ws.map String.toList) := by
  intro hmem
  rcases joinSep_mem '-' _ '#' hmem with h1 | ⟨g, hg, hcg⟩
  · exact (by decide : ¬ ('#' = '-')) h1
  · rcases List.mem_map.mp hg with ⟨w, hwmem, hwg⟩
    have := ((goodWords_facts ws h).2 w hwmem).2 '#' (hwg ▸ hcg)
    exact (by decide : ('#' ∈ alphaLower) → False) this

theorem splitHash_parse (d : Digest) (ws : List String) (hw : goodWords ws = true) :
    splitSep '#' (displayChars d ++ '#' :: joinSep '-' (ws.map String.toList)) =
      [displayChars d, joinSep '-' (ws.map String.toList)] := by
  rw [splitSep_append '#' _ _ (displayChars_no_hashmark d)]
  rw [splitSep_nonmem '#' _ (wordChars_no_hashmark ws hw)]

theorem splitDash_display (d : Digest) :
    splitSep '-' (displayChars d) = splitSizes groupSizes (encodeDigest d) := by
  rw [displayChars]
  exact splitSep_joinSep '-' _ (by simp [groupSizes, splitSizes]) (display_groups_no_dash d)

theorem splitDash_words (ws : List String) (hw : goodWords ws = true) :
    splitSep '-' (joinSep '-' (ws.map String.toList)) = ws.map String.toList := by
  refine splitSep_joinSep '-' _ ?_ ?_
  · have := (goodWords_facts ws hw).1
    intro hnil
    rw [show ws = [] from by cases ws with | nil => rfl | cons a l => simp at hnil] at this
    simp at this
  · intro g hg hmem
    rcases List.mem_map.mp hg with ⟨w, hwmem, hwg⟩
    have := ((goodWords_facts ws hw).2 w hwmem).2 '-' (hwg ▸ hmem)
    exact (by decide : ('-' ∈ alphaLower) → False) this

theorem splitSizes_lengths (cs : List Char) (h : cs.length = 43) :
    (splitSizes groupSizes cs).map List.length = groupSizes := by
  simp [splitSizes, groupSizes, List.length_take, List.length_drop, h]

theorem checkBody_display (d : Digest) : checkBody (displayChars d) = true := by
  rw [checkBody, splitDash_display d]
  have h1 : ((splitSizes groupSizes (encodeDigest d)).map List.length == groupSizes) = true := by
    rw [splitSizes_lengths (encodeDigest d) (encodeDigest_length d)]
    simp
  rw [h1, Bool.true_and, List.all_eq_true]
  intro g hg
  rw [List.all_eq_true]
  intro c hc
  have := encodeDigest_mem_alphabet d c (splitSizes_subset groupSizes _ g hg c hc)
  simpa using this

theorem checkWords_good (ws : List String) (hw : goodWords ws = true) :
    checkWords (joinSep '-' (ws.map String.toList)) = true := by
  rw [checkWords, splitDash_words ws hw]
  rcases goodWords_facts ws hw with ⟨hlen, hws⟩
  have h1 : ((ws.map String.toList).length == 3) = true := by simp [hlen]
  rw [h1, Bool.true_and, List.all_eq_true]
  intro w hwmem
  rcases List.mem_map.mp hwmem with ⟨w0, hw0, hww⟩
  rcases hws w0 hw0 with ⟨hne, hlow⟩
  rw [Bool.and_eq_true]
  constructor
  · rw [← hww]
    simpa using hne
  · rw [List.all_eq_true]
    intro c hc
    have := hlow c (hww ▸ hc)
    simpa using this

set_option maxRecDepth 40000 in
/-- Claim C2: every identifier string produced by the rendering pipeline,
for any digest and any well-shaped mnemonic derivation, matches the external
format: the stl prefix tag, six dash-separated fixed-width groups over the
encoding alphabet, a hash mark and exactly three dash-separated words; and
the four pinned identifier constants of src/stl.rs all match that format. -/
theorem libId_format :
    (∀ (hash : List Nat → Digest) (mnem : Digest → List String) (l : SymbolicLib),
      goodWords (mnem (hash (canonical l))) = true →
      isLibIdFmt (idString hash mnem l) = true) ∧
    isLibIdFmt LIB_ID_STD = true ∧
    isLibIdFmt LIB_ID_STRICT_TYPES = true ∧
    isLibIdFmt LIB_ID_BITCOIN = true ∧
    isLibIdFmt LIB_ID_BITCOIN_TX = true := by
  refine ⟨?_, by decide, by decide, by decide, by decide⟩
  intro hash mnem l hw
  have hstep : isLibIdFmt (idString hash mnem l) =
      checkRest (displayChars (hash (canonical l)) ++
        '#' :: joinSep '-' ((mnem (hash (canonical l))).map String.toList)) := rfl
  rw [hstep, checkRest, splitHash_parse _ _ hw]
  show (checkBody (displayChars (hash (canonical l))) &&
    checkWords (joinSep '-' ((mnem (hash (canonical l))).map String.toList))) = true
  rw [checkBody_display, checkWords_good _ hw]
  rfl

theorem libId_format_witness :
    isLibIdFmt (idString (fun _ => List.replicate 32 0) (fun _ => ["aa", "bb", "cc"])
      demoMissingLib) = true :=
  libId_format.1 (fun _ => List.replicate 32 0) (fun _ => ["aa", "bb", "cc"])
    demoMissingLib (by decide)

/-! ### Decoding inverts the digest rendering -/

theorem indexOf_getD_alphabet : ∀ v < 64, alphabet.indexOf (alphabet.getD v 'A') = v := by
  decide

theorem encode_getD (d : Digest) (i : Nat) (h : i < 43) :
    (encodeDigest d).getD i 'A' = digestChar d i := by
  rw [encodeDigest]
  exact range_map_getD (digestChar d) 43 i h 'A'

theorem charIndexAt_bit (d : Digest) (i r : Nat) (hr : r < 6) :
    charIndexAt d i / 2 ^ (5 - r) % 2 = digestBit d (6 * i + r) := by
  have hb0 := digestBit_lt d (6 * i)
  have hb1 := digestBit_lt d (6 * i + 1)
  have hb2 := digestBit_lt d (6 * i + 2)
  have hb3 := digestBit_lt d (6 * i + 3)
  have hb4 := digestBit_lt d (6 * i + 4)
  have hb5 := digestBit_lt d (6 * i + 5)
  rw [charIndexAt]
  have hcase : r = 0 ∨ r = 1 ∨ r = 2 ∨ r = 3 ∨ r = 4 ∨ r = 5 := by omega
  rcases hcase with h | h | h | h | h | h <;> subst h <;> norm_num <;> omega

theorem charBitAt_encode (d : Digest) (j : Nat) (h : j < 256) :
    charBitAt (encodeDigest d) j = digestBit d j := by
  have hj6 : j / 6 < 43 := by omega
  rw [charBitAt, encode_getD d (j / 6) hj6, digestChar,
    indexOf_getD_alphabet _ (charIndexAt_lt d (j / 6)),
    charIndexAt_bit d (j / 6) (j % 6) (Nat.mod_lt _ (by omega)),
    Nat.div_add_mod]

theorem digestBit_byte (d : Digest) (k r : Nat) (hr : r < 8) :
    digestBit d (8 * k + r) = d.getD k 0 / 2 ^ (7 - r) % 2 := by
  rw [digestBit]
  have h1 : (8 * k + r) / 8 = k := by omega
  have h2 : (8 * k + r) % 8 = r := by omega
  rw [h1, h2]

theorem decode_encode (d : Digest) (hv : validDigest d = true) :
    decodeDigest (encodeDigest d) = d := by
  rw [validDigest, Bool.and_eq_true] at hv
  have hlen : d.length = 32 := by simpa using hv.1
  have hbyte : ∀ b ∈ d, b < 256 := by
    intro b hb
    have := (List.all_eq_true.mp hv.2) b hb
    simpa using this
  rw [decodeDigest]
  apply List.ext_getElem (by simp [hlen])
  intro k hk1 hk2
  simp only [List.getElem_map, List.getElem_range]
  have hk : k < 32 := by simpa using hk1
  have hbc : ∀ r, r < 8 → charBitAt (encodeDigest d) (8 * k + r) = digestBit d (8 * k + r) :=
    fun r hr => charBitAt_encode d (8 * k + r) (by omega)
  have g0 : charBitAt (encodeDigest d) (8 * k) = d.getD k 0 / 128 % 2 := by
    have h := (hbc 0 (by omega)).trans (digestBit_byte d k 0 (by omega))
    rw [Nat.add_zero] at h
    rw [h]
    norm_num
  have g1 : charBitAt (encodeDigest d) (8 * k + 1) = d.getD k 0 / 64 % 2 := by
    rw [(hbc 1 (by omega)).trans (digestBit_byte d k 1 (by omega))]
    norm_num
  have g2 : charBitAt (encodeDigest d) (8 * k + 2) = d.getD k 0 / 32 % 2 := by
    rw [(hbc 2 (by omega)).trans (digestBit_byte d k 2 (by omega))]
    norm_num
  have g3 : charBitAt (encodeDigest d) (8 * k + 3) = d.getD k 0 / 16 % 2 := by
    rw [(hbc 3 (by omega)).trans (digestBit_byte d k 3 (by omega))]
    norm_num
  have g4 : charBitAt (encodeDigest d) (8 * k + 4) = d.getD k 0 / 8 % 2 := by
    rw [(hbc 4 (by omega)).trans (digestBit_byte d k 4 (by omega))]
    norm_num
  have g5 : charBitAt (encodeDigest d) (8 * k + 5) = d.getD k 0 / 4 % 2 := by
    rw [(hbc 5 (by omega)).trans (digestBit_byte d k 5 (by omega))]
    norm_num
  have g6 : charBitAt (encodeDigest d) (8 * k + 6) = d.getD k 0 / 2 % 2 := by
    rw [(hbc 6 (by omega)).trans (digestBit_byte d k 6 (by omega))]
    norm_num
  have g7 : charBitAt (encodeDigest d) (8 * k + 7) = d.getD k 0 % 2 := by
    rw [(hbc 7 (by omega)).trans (digestBit_byte d k 7 (by omega))]
    norm_num
  rw [g0, g1, g2, g3, g4, g5, g6, g7]
  have hklen : k < d.length := by omega
  have hx : d.getD k 0 < 256 := by
    rw [List.getD_eq_getElem d 0 hklen]
    exact hbyte _ (List.getElem_mem hklen)
  rw [show d[k] = d.getD k 0 from (List.getD_eq_getElem d 0 hklen).symm]
  omega

theorem extract_idString (hash : List Nat → Digest) (mnem : Digest → List String)
    (l : SymbolicLib) (hv : validDigest (hash (canonical l)) = true)
    (hw : goodWords (mnem (hash (canonical l))) = true) :
    extractDigest (idString hash mnem l) = hash (canonical l) := by
  have hstep : extractDigest (idString hash mnem l) =
      extractRest (displayChars (hash (canonical l)) ++
        '#' :: joinSep '-' ((mnem (hash (canonical l))).map String.toList)) := rfl
  rw [hstep, extractRest, splitHash_parse _ _ hw]
  show decodeDigest ((splitSep '-' (displayChars (hash (canonical l)))).flatten) = _
  rw [splitDash_display, flatten_splitSizes]
  rw [show groupSizes.sum = 43 from by decide]
  rw [show (43 : Nat) = (encodeDigest (hash (canonical l))).length from
    (encodeDigest_length _).symm]
  rw [List.take_length]
  exact decode_encode _ hv

set_option maxRecDepth 40000 in
set_option maxHeartbeats 1600000 in
/-- Claim C3: the identifier is content-sensitive: whenever the canonical
serializations of two libraries map to different digests, their identifier
strings differ (for any well-shaped mnemonic derivation); the canonical
serialization itself separates a changed field name, changed struct field
order, changed enum variant order, changed dependency identity and a changed
symbol set, and in particular the two bitcoin libraries have different
canonical serializations and their pinned identifiers differ. -/
theorem libId_content_sensitive :
    (∀ (hash : List Nat → Digest) (mnem : Digest → List String) (l1 l2 : SymbolicLib),
      validDigest (hash (canonical l1)) = true →
      validDigest (hash (canonical l2)) = true →
      goodWords (mnem (hash (canonical l1))) = true →
      goodWords (mnem (hash (canonical l2))) = true →
      hash (canonical l1) ≠ hash (canonical l2) →
      idString hash mnem l1 ≠ idString hash mnem l2) ∧
    LIB_ID_BITCOIN ≠ LIB_ID_BITCOIN_TX ∧
    canonical bitcoinSymLib ≠ canonical bitcoinTxSymLib ∧
    canonical mutBase ≠ canonical mutFieldName ∧
    canonical mutBase ≠ canonical mutFieldOrder ∧
    canonical mutEnumBase ≠ canonical mutEnumOrder ∧
    canonical mutDepBase ≠ canonical mutDepId ∧
    canonical mutBase ≠ canonical mutSymSet := by
  refine ⟨?_, by decide, by decide, by decide, by decide, by decide, by decide, by decide⟩
  intro hash mnem l1 l2 hv1 hv2 hw1 hw2 hne heq
  exact hne (by rw [← extract_idString hash mnem l1 hv1 hw1,
    ← extract_idString hash mnem l2 hv2 hw2, heq])

set_option maxRecDepth 40000 in
theorem libId_content_sensitive_witness :
    idString hashW3 mnemW3 mutBase ≠ idString hashW3 mnemW3 mutFieldName :=
  libId_content_sensitive.1 hashW3 mnemW3 mutBase mutFieldName
    (by decide) (by decide) (by decide) (by decide) (by decide)

end StrictTypes
